import Mathlib

/-!
Verification development for the image-insight chat client
(src/src/pages/Index.tsx).  The definitions below shallowly embed the
streaming SSE decoder and the send / upload handlers of the page.  Byte
streams are modelled as lists of characters: the TextDecoder in streaming
mode reassembles UTF-8 code points across chunk boundaries, so character
granularity is the faithful abstraction of the byte stream.
-/

namespace ImageInsight

/-- Characters removed by the JavaScript trim method: ASCII whitespace,
NBSP, BOM, line separators and the Unicode space separators. -/
def jsWhitespaceChar (c : Char) : Bool :=
  c = ' ' || c = '\t' || c = '\n' || c = '\r' ||
  c.toNat = 11 || c.toNat = 12 || c.toNat = 0xa0 || c.toNat = 0x1680 ||
  (0x2000 ≤ c.toNat && c.toNat ≤ 0x200a) || c.toNat = 0x2028 ||
  c.toNat = 0x2029 || c.toNat = 0x202f || c.toNat = 0x205f ||
  c.toNat = 0x3000 || c.toNat = 0xfeff

/-- Model of the JavaScript trim method: remove leading and trailing
whitespace. -/
def jsTrim (s : List Char) : List Char :=
  ((s.dropWhile jsWhitespaceChar).reverse.dropWhile jsWhitespaceChar).reverse

/-- Model of the line.endsWith and slice step of the decoder: remove a
single trailing carriage return when present. -/
def stripCR (l : List Char) : List Char :=
  if l.getLast? = some '\r' then l.dropLast else l

/-- JSON values as produced by JSON.parse.  Numbers are modelled as exact
rationals (every literal of the JSON number grammar denotes one); the
double rounding JavaScript applies on top is not modelled, and no claim
exercises it. -/
inductive Json where
  | null : Json
  | bool (b : Bool) : Json
  | num (q : Rat) : Json
  | str (s : List Char) : Json
  | arr (elems : List Json) : Json
  | obj (fields : List (List Char × Json)) : Json

/-- The opening brace character. -/
def jLBrace : Char := Char.ofNat 0x7b

/-- The closing brace character. -/
def jRBrace : Char := Char.ofNat 0x7d

/-- Whitespace skipped by JSON.parse between tokens. -/
def skipJWs (s : List Char) : List Char :=
  s.dropWhile (fun c => c = ' ' || c = '\t' || c = '\n' || c = '\r')

/-- Value of one hexadecimal digit. -/
def hexVal (c : Char) : Option Nat :=
  if 48 ≤ c.toNat ∧ c.toNat ≤ 57 then some (c.toNat - 48)
  else if 97 ≤ c.toNat ∧ c.toNat ≤ 102 then some (c.toNat - 87)
  else if 65 ≤ c.toNat ∧ c.toNat ≤ 70 then some (c.toNat - 55)
  else none

/-- Parse the body of a JSON string literal (the opening quote already
consumed), returning the decoded characters and the input after the
closing quote.  Surrogate pairs written with two unicode escapes are
combined into one code point; a lone surrogate becomes U+FFFD, matching
the replacement JavaScript strings display for unpaired surrogates.
Fuel-bounded: each step consumes at least one character, so fuel equal to
the input length suffices. -/
def parseJStringF : Nat → List Char → Option (List Char × List Char)
  | 0, _ => none
  | _ + 1, [] => none
  | _ + 1, '"' :: r => some ([], r)
  | fuel + 1, '\\' :: '"' :: r => (parseJStringF fuel r).map fun p => ('"' :: p.1, p.2)
  | fuel + 1, '\\' :: '\\' :: r => (parseJStringF fuel r).map fun p => ('\\' :: p.1, p.2)
  | fuel + 1, '\\' :: '/' :: r => (parseJStringF fuel r).map fun p => ('/' :: p.1, p.2)
  | fuel + 1, '\\' :: 'b' :: r => (parseJStringF fuel r).map fun p => (Char.ofNat 8 :: p.1, p.2)
  | fuel + 1, '\\' :: 'f' :: r => (parseJStringF fuel r).map fun p => (Char.ofNat 12 :: p.1, p.2)
  | fuel + 1, '\\' :: 'n' :: r => (parseJStringF fuel r).map fun p => ('\n' :: p.1, p.2)
  | fuel + 1, '\\' :: 'r' :: r => (parseJStringF fuel r).map fun p => ('\r' :: p.1, p.2)
  | fuel + 1, '\\' :: 't' :: r => (parseJStringF fuel r).map fun p => ('\t' :: p.1, p.2)
  | fuel + 1, '\\' :: 'u' :: a :: b :: c :: d :: r =>
    match hexVal a, hexVal b, hexVal c, hexVal d with
    | some ha, some hb, some hc, some hd =>
      let n := ((ha * 16 + hb) * 16 + hc) * 16 + hd
      if 0xd800 ≤ n ∧ n ≤ 0xdbff then
        match r with
        | '\\' :: 'u' :: e :: f :: g :: h :: r2 =>
          match hexVal e, hexVal f, hexVal g, hexVal h with
          | some he, some hf, some hg, some hh =>
            let m := ((he * 16 + hf) * 16 + hg) * 16 + hh
            if 0xdc00 ≤ m ∧ m ≤ 0xdfff then
              (parseJStringF fuel r2).map fun p =>
                (Char.ofNat (0x10000 + (n - 0xd800) * 0x400 + (m - 0xdc00)) :: p.1, p.2)
            else
              (parseJStringF fuel r).map fun p => (Char.ofNat 0xfffd :: p.1, p.2)
          | _, _, _, _ => (parseJStringF fuel r).map fun p => (Char.ofNat 0xfffd :: p.1, p.2)
        | _ => (parseJStringF fuel r).map fun p => (Char.ofNat 0xfffd :: p.1, p.2)
      else if 0xdc00 ≤ n ∧ n ≤ 0xdfff then
        (parseJStringF fuel r).map fun p => (Char.ofNat 0xfffd :: p.1, p.2)
      else
        (parseJStringF fuel r).map fun p => (Char.ofNat n :: p.1, p.2)
    | _, _, _, _ => none
  | _ + 1, '\\' :: _ :: _ => none
  | _ + 1, ['\\'] => none
  | fuel + 1, c :: r =>
    if c.toNat < 32 then none
    else (parseJStringF fuel r).map fun p => (c :: p.1, p.2)

/-- Parse the body of a JSON string literal with sufficient fuel. -/
def parseJString (s : List Char) : Option (List Char × List Char) :=
  parseJStringF (s.length + 1) s

/-- Numeric value of a digit string. -/
def digitsToNat (ds : List Char) : Nat :=
  ds.foldl (fun n c => 10 * n + (c.toNat - 48)) 0

/-- Parse a JSON number literal at the head of the input. -/
def parseNum (s : List Char) : Option (Json × List Char) :=
  let p := match s with | '-' :: r => (true, r) | _ => (false, s)
  let neg := p.1
  let s1 := p.2
  let intDs := s1.takeWhile (·.isDigit)
  let s2 := s1.dropWhile (·.isDigit)
  if intDs = [] then none
  else if 2 ≤ intDs.length ∧ intDs.head? = some '0' then none
  else
    let fracStep : Option (List Char × List Char) :=
      match s2 with
      | '.' :: r =>
        let ds := r.takeWhile (·.isDigit)
        if ds = [] then none else some (ds, r.dropWhile (·.isDigit))
      | _ => some ([], s2)
    match fracStep with
    | none => none
    | some (fracDs, s3) =>
      let expStep : Option (Int × List Char) :=
        match s3 with
        | 'e' :: r | 'E' :: r =>
          let q := match r with
            | '+' :: r2 => ((1 : Int), r2)
            | '-' :: r2 => ((-1 : Int), r2)
            | _ => ((1 : Int), r)
          let ds := q.2.takeWhile (·.isDigit)
          if ds = [] then none
          else some (q.1 * (digitsToNat ds : Int), q.2.dropWhile (·.isDigit))
        | _ => some (0, s3)
      match expStep with
      | none => none
      | some (e, s4) =>
        let base : Rat :=
          ((digitsToNat (intDs ++ fracDs) : Int) : Rat) / ((10 : Rat) ^ fracDs.length)
        let mag : Rat :=
          if 0 ≤ e then base * (10 : Rat) ^ e.toNat else base / (10 : Rat) ^ (-e).toNat
        some (.num (if neg then -mag else mag), s4)

mutual

/-- Parse one JSON value at the head of the input (fuel-bounded recursive
descent; jsonParse supplies enough fuel for any input). -/
def parseValue : Nat → List Char → Option (Json × List Char)
  | 0, _ => none
  | fuel + 1, s =>
    match skipJWs s with
    | 'n' :: 'u' :: 'l' :: 'l' :: r => some (.null, r)
    | 't' :: 'r' :: 'u' :: 'e' :: r => some (.bool true, r)
    | 'f' :: 'a' :: 'l' :: 's' :: 'e' :: r => some (.bool false, r)
    | '"' :: r => (parseJString r).map fun p => (.str p.1, p.2)
    | '[' :: r =>
      (match skipJWs r with
       | ']' :: r2 => some (.arr [], r2)
       | _ => (parseElems fuel r).map fun p => (.arr p.1, p.2))
    | c :: r =>
      if c = jLBrace then
        match skipJWs r with
        | c2 :: r2 =>
          if c2 = jRBrace then some (.obj [], r2)
          else (parseMembers fuel r).map fun p => (.obj p.1, p.2)
        | [] => none
      else parseNum (c :: r)
    | [] => none

/-- Parse a non-empty comma-separated list of JSON array elements,
consuming the closing bracket. -/
def parseElems : Nat → List Char → Option (List Json × List Char)
  | 0, _ => none
  | fuel + 1, s =>
    match parseValue fuel s with
    | none => none
    | some (v, r) =>
      match skipJWs r with
      | ',' :: r2 => (parseElems fuel r2).map fun p => (v :: p.1, p.2)
      | ']' :: r2 => some ([v], r2)
      | _ => none

/-- Parse a non-empty comma-separated list of JSON object members,
consuming the closing brace. -/
def parseMembers : Nat → List Char → Option (List (List Char × Json) × List Char)
  | 0, _ => none
  | fuel + 1, s =>
    match skipJWs s with
    | '"' :: r =>
      match parseJString r with
      | none => none
      | some (key, r2) =>
        match skipJWs r2 with
        | ':' :: r3 =>
          match parseValue fuel r3 with
          | none => none
          | some (v, r4) =>
            match skipJWs r4 with
            | ',' :: r5 => (parseMembers fuel r5).map fun p => ((key, v) :: p.1, p.2)
            | c :: r5 => if c = jRBrace then some ([(key, v)], r5) else none
            | [] => none
        | _ => none
    | _ => none

end

/-- Model of JSON.parse: parse one value and require only whitespace to
follow; anything else rejects (JSON.parse throws). -/
def jsonParse (s : List Char) : Option Json :=
  match parseValue (2 * s.length + 4) s with
  | some (j, r) => if skipJWs r = [] then some j else none
  | none => none

/-- JavaScript property access on a JSON value: a field of an object
(JSON.parse keeps the last duplicate key, so lookup scans from the end);
undefined on every other value. -/
def jsGetProp (j : Json) (key : List Char) : Option Json :=
  match j with
  | .obj fields => ((fields.reverse.find? (fun p => p.1 == key)).map fun p => p.2)
  | _ => none

/-- JavaScript index access with subscript 0: first element of an array,
property named 0 of an object, first character of a string, undefined
otherwise. -/
def jsIndex0 : Json → Option Json
  | .arr es => es.head?
  | .obj fields => jsGetProp (.obj fields) ['0']
  | .str (c :: _) => some (.str [c])
  | _ => none

/-- JavaScript truthiness of a JSON value. -/
def jsTruthy : Json → Bool
  | .null => false
  | .bool b => b
  | .num q => decide (q ≠ 0)
  | .str s => decide (s ≠ [])
  | .arr _ => true
  | .obj _ => true

/-- Decimal digits of a natural number. -/
def natDigits (n : Nat) : List Char := (toString n).toList

/-- Fuel-bounded long division producing the fractional digits of
num / den (num < den). -/
def fracDigits : Nat → Nat → Nat → List Char
  | 0, _, _ => []
  | fuel + 1, n, d =>
    if n = 0 then []
    else Char.ofNat (48 + n * 10 / d) :: fracDigits fuel (n * 10 % d) d

/-- Decimal rendering of a rational.  Every number produced by the JSON
grammar has a terminating decimal expansion, rendered exactly up to the
fuel bound; the exponential-notation switch and double rounding of
JavaScript number formatting are not modelled (no stream in any claim
carries a numeric fragment). -/
def ratToDecimal (q : Rat) : List Char :=
  let sign : List Char := if q < 0 then ['-'] else []
  let a : Rat := |q|
  let ip := a.num.toNat / a.den
  let rem := a.num.toNat % a.den
  let frac := fracDigits 1100 rem a.den
  sign ++ natDigits ip ++ (if frac = [] then [] else '.' :: frac)

mutual

/-- JavaScript string coercion of a JSON value, as applied by the +=
concatenation: strings verbatim, booleans and null by name, numbers in
decimal, arrays joined with commas (null elements become empty), plain
objects as [object Object]. -/
def jsToDisplay : Json → List Char
  | .str s => s
  | .bool true => ("true").toList
  | .bool false => ("false").toList
  | .null => ("null").toList
  | .num q => ratToDecimal q
  | .obj _ => ("[object Object]").toList
  | .arr es => List.intercalate [','] (jsDispList es)

/-- String coercions of the elements of an array, null becoming empty. -/
def jsDispList : List Json → List (List Char)
  | [] => []
  | j :: js =>
    (match j with
     | .null => []
     | j2 => jsToDisplay j2) :: jsDispList js

end

/-- The navigation parsed.choices?.[0]?.delta?.content of the decoder.
The first access is unconditional but is only reached for non-null values
(tryEvent handles null); each later access uses optional chaining, which
turns null and undefined into undefined instead of throwing. -/
def eventContent (j : Json) : Option Json :=
  match jsGetProp j (("choices").toList) with
  | none => none
  | some .null => none
  | some c =>
    match jsIndex0 c with
    | none => none
    | some .null => none
    | some e =>
      match jsGetProp e (("delta").toList) with
      | none => none
      | some .null => none
      | some d => jsGetProp d (("content").toList)

/-- The body of the try block of the decoder for one extracted payload:
none models a thrown exception (JSON.parse rejecting, or the TypeError
from accessing .choices on null); some c models success with the
optionally-present content value. -/
def tryEvent (payload : List Char) : Option (Option Json) :=
  match jsonParse payload with
  | none => none
  | some .null => none
  | some j => some (eventContent j)

/-- The 6-character prefix that marks a data line. -/
def dataMarker : List Char := ("data: ").toList

/-- The stream-end sentinel payload. -/
def doneTok : List Char := ("[DONE]").toList

/-- Split a buffer into its newline-terminated complete lines (without
the newline) and the trailing remainder that has no newline yet. -/
def splitLines : List Char → List (List Char) × List Char
  | [] => ([], [])
  | c :: t =>
    if c = '\n' then ([] :: (splitLines t).1, (splitLines t).2)
    else
      match splitLines t with
      | ([], rem) => ([], c :: rem)
      | (l :: ls, rem) => ((c :: l) :: ls, rem)

/-- Rebuild a buffer from complete lines and a remainder. -/
def rejoin : List (List Char) → List Char → List Char
  | [], rem => rem
  | l :: ls, rem => l ++ '\n' :: rejoin ls rem

/-- Decoder accumulator state: assistantContent, the fragments appended
so far in order, and the values published to the transcript (the code
publishes the full accumulator after every appended fragment). -/
structure DecSt where
  acc : List Char
  frags : List (List Char)
  trace : List (List Char)
  deriving DecidableEq, Repr

/-- The initial accumulator state. -/
def DecSt.init : DecSt := ⟨[], [], []⟩

/-- Append one truthy fragment: extend the accumulator and publish its
new full value. -/
def DecSt.push (st : DecSt) (c : List Char) : DecSt :=
  ⟨st.acc ++ c, st.frags ++ [c], st.trace ++ [st.acc ++ c]⟩

/-- Result of draining the buffer inside one read iteration: the new
buffer, the new accumulator state, and whether the inner while loop ran
to the end of the buffer (false when it left via break). -/
structure PB where
  buf : List Char
  st : DecSt
  ran : Bool
  deriving DecidableEq, Repr

/-- The inner while loop of the decoder, processing the extracted
complete lines in order (each line is handled exactly as in the source:
strip one trailing CR, skip comments and blank lines, skip non-data
lines, break on the [DONE] sentinel leaving the rest buffered, and on a
parse exception push the stripped line plus newline back onto the buffer
and break). -/
def runLines : List (List Char) → List Char → DecSt → PB
  | [], rem, st => ⟨rem, st, true⟩
  | l :: ls, rem, st =>
    let l1 := stripCR l
    if l1.head? = some ':' ∨ jsTrim l1 = [] then runLines ls rem st
    else if ¬ dataMarker.isPrefixOf l1 then runLines ls rem st
    else
      let jsonStr := jsTrim (l1.drop 6)
      if jsonStr = doneTok then ⟨rejoin ls rem, st, false⟩
      else
        match tryEvent jsonStr with
        | none => ⟨l1 ++ '\n' :: rejoin ls rem, st, false⟩
        | some none => runLines ls rem st
        | some (some v) =>
          if jsTruthy v then runLines ls rem (st.push (jsToDisplay v))
          else runLines ls rem st

/-- One read iteration of the decoder on a full buffer. -/
def processBuffer (b : List Char) (st : DecSt) : PB :=
  runLines (splitLines b).1 (splitLines b).2 st

/-- One outer-loop step: append the decoded chunk to the buffer and drain
it.  Note there is no persistent stop flag in the source: a break of the
inner loop does not end the outer read loop. -/
def decodeStep (s : List Char × DecSt) (chunk : List Char) : List Char × DecSt :=
  let r := processBuffer (s.1 ++ chunk) s.2
  (r.buf, r.st)

/-- Run the decoder over an ordered sequence of chunks, starting from an
empty buffer and empty accumulator. -/
def decodeChunks (chunks : List (List Char)) : List Char × DecSt :=
  chunks.foldl decodeStep ([], DecSt.init)

/-- Message roles. -/
inductive Role where
  | user : Role
  | assistant : Role
  deriving DecidableEq, Repr

/-- One transcript entry. -/
structure Message where
  role : Role
  content : List Char
  imageUrl : Option (List Char)
  deriving DecidableEq, Repr

/-- The component state touched by the handlers: the transcript, the text
input, the selected image (a data URL), the loading flag, and the value
of the hidden file input element. -/
structure AppState where
  messages : List Message
  input : List Char
  selectedImage : Option (List Char)
  isLoading : Bool
  fileInputValue : List Char
  deriving DecidableEq, Repr

/-- A file offered to handleImageSelect: declared media type, size in
bytes, and the data URL the FileReader would produce for it. -/
structure FileData where
  ftype : List Char
  size : Nat
  dataUrl : List Char
  deriving DecidableEq, Repr

/-- The handleImageSelect handler.  The asynchronous FileReader callback
is collapsed into the accepting branch: on acceptance the data URL
becomes the selected image.  Returns the new state and the toasts
raised. -/
def handleImageSelect (s : AppState) (file : Option FileData) :
    AppState × List (List Char) :=
  match file with
  | none => (s, [])
  | some f =>
    if ¬ (("image/").toList.isPrefixOf f.ftype) then
      (s, [("Please select an image file").toList])
    else if 20 * 1024 * 1024 < f.size then
      (s, [("Image size must be less than 20MB").toList])
    else
      ({ s with selectedImage := some f.dataUrl }, [])

/-- The JSON body of the analysis request; JSON.stringify omits fields
whose value is undefined, modelled by the option. -/
structure ReqBody where
  imageBase64 : List Char
  prompt : Option (List Char)
  deriving DecidableEq, Repr

/-- The response of the analysis request as the handler observes it:
the ok flag, the text response.json() would parse on the error path
(none when that promise rejects), and the streamed body: none for a null
body, otherwise the chunks delivered in order plus an optional message
of an exception thrown by the transport after those chunks. -/
structure Response where
  ok : Bool
  jsonBody : Option (List Char)
  stream : Option (List (List Char) × Option (List Char))
  deriving DecidableEq, Repr

/-- The outcome of handleSend: the final state, the toasts raised, and
the request body sent (none when validation rejected before fetch). -/
structure SendOut where
  state : AppState
  toasts : List (List Char)
  request : Option ReqBody
  deriving DecidableEq, Repr

/-- The generic error message of the failure path. -/
def fallbackErr : List Char := ("Failed to analyze image").toList

/-- The message of the TypeError raised by reading the error field off a
null errorData (the failure body was the JSON text null, which
response.json() resolves to).  The exact wording is engine-dependent;
this is the V8 text.  What matters behaviourally is that it is neither
the generic fallback nor any server-provided value. -/
def nullErrorAccessMsg : List Char :=
  ("Cannot read properties of null (reading \x27error\x27)").toList

/-- The message of the Error surfaced from the !ok / !body path:
errorData.error when truthy (coerced to a string), otherwise the generic
message; errorData is the parsed body, or an empty object when
response.json() rejects.  When the body parses to JSON null, the
property access errorData.error itself throws a TypeError, and the outer
catch surfaces that TypeError message instead. -/
def errorMessageOf (body : Option (List Char)) : List Char :=
  match body with
  | none => fallbackErr
  | some t =>
    match jsonParse t with
    | none => fallbackErr
    | some .null => nullErrorAccessMsg
    | some j =>
      match jsGetProp j (("error").toList) with
      | none => fallbackErr
      | some v => if jsTruthy v then jsToDisplay v else fallbackErr

/-- The setMessages updater of the streaming loop: copy the array and
overwrite its last slot with the assistant message carrying the full
accumulator (an out-of-range write on an empty array changes nothing). -/
def updateLast (prev : List Message) (acc : List Char) : List Message :=
  if prev = [] then prev
  else prev.dropLast ++ [⟨Role.assistant, acc, none⟩]

/-- The default question substituted for an empty trimmed input. -/
def defaultQuestion : List Char := ("What\x27s in this image?").toList

/-- The handleSend handler, modelled against an abstract response.  The
fetch is issued exactly when validation passes, so the request component
is some precisely on those runs.  The transcript states published during
streaming are the trace values folded through updateLast. -/
def handleSend (s : AppState) (r : Response) : SendOut :=
  if s.selectedImage = none ∧ jsTrim s.input = [] then
    ⟨s, [("Please upload an image or enter a message").toList], none⟩
  else
    match s.selectedImage with
    | none => ⟨s, [("Please upload an image to analyze").toList], none⟩
    | some img =>
      let trimmed := jsTrim s.input
      let userMessage : Message :=
        ⟨Role.user, if trimmed = [] then defaultQuestion else trimmed, some img⟩
      let req : ReqBody := ⟨img, if trimmed = [] then none else some trimmed⟩
      let msgs1 := s.messages ++ [userMessage]
      let msgs2 := msgs1 ++ [⟨Role.assistant, [], none⟩]
      match r.ok, r.stream with
      | true, some (chunks, streamErr) =>
        let st := (decodeChunks chunks).2
        let msgsStreamed := st.trace.foldl updateLast msgs2
        match streamErr with
        | some em =>
          ⟨{ messages := msgsStreamed.dropLast, input := [], selectedImage := some img,
             isLoading := false, fileInputValue := s.fileInputValue }, [em], some req⟩
        | none =>
          ⟨{ messages := msgsStreamed, input := [], selectedImage := none,
             isLoading := false, fileInputValue := [] }, [], some req⟩
      | _, _ =>
        ⟨{ messages := msgs2.dropLast, input := [], selectedImage := some img,
           isLoading := false, fileInputValue := s.fileInputValue },
         [errorMessageOf r.jsonBody], some req⟩

/-- The [DONE] sentinel line: a data line whose trimmed payload is the
sentinel token. -/
def isDoneLine (l : List Char) : Bool :=
  dataMarker.isPrefixOf (stripCR l) && jsTrim ((stripCR l).drop 6) == doneTok

/-- A line the inner loop passes over without breaking: a comment, a
blank line, a non-data line, or a data line that is not the sentinel and
whose payload parses without an exception. -/
def goodLine (l : List Char) : Bool :=
  let l1 := stripCR l
  decide (l1.head? = some ':') || jsTrim l1 == [] ||
    ! dataMarker.isPrefixOf l1 ||
    (jsTrim (l1.drop 6) != doneTok && (tryEvent (jsTrim (l1.drop 6))).isSome)

/-- Well-formed SSE stream, following the protocol of the spec: every
complete line is a comment, a blank, a non-protocol line, or a data line
carrying a valid JSON event, except that the stream may end with the
data [DONE] sentinel as its final line (nothing after its newline). -/
def wellFormedB (S : List Char) : Bool :=
  (splitLines S).1.all goodLine ||
    (match (splitLines S).1.getLast? with
     | some d => isDoneLine d && (splitLines S).1.dropLast.all goodLine
         && ((splitLines S).2 == [])
     | none => false)

/-- The running concatenations of a fragment list on top of a prior
accumulator value: the k-th element joins the first k+1 fragments. -/
def prefixJoinsAux (a : List Char) : List (List Char) → List (List Char)
  | [] => []
  | f :: fs => (a ++ f) :: prefixJoinsAux (a ++ f) fs

/-- The running concatenations of a fragment list from the empty
accumulator. -/
def prefixJoins (fs : List (List Char)) : List (List Char) :=
  prefixJoinsAux [] fs

/-- Whether the response body is a JSON value carrying an error field
(used to exhibit a present-but-falsy error field). -/
def errFieldPresent (body : List Char) : Bool :=
  match jsonParse body with
  | some j => (jsGetProp j (("error").toList)).isSome
  | none => false

/-- Splitting after a newline prepends an empty complete line. -/
theorem splitLines_newline_cons (t : List Char) :
    splitLines ('\n' :: t) = ([] :: (splitLines t).1, (splitLines t).2) := rfl

/-- Unfolding of splitLines on a non-newline head. -/
theorem splitLines_cons_ne (c : Char) (t : List Char) (h : ¬ c = '\n') :
    splitLines (c :: t) =
      (match splitLines t with
       | ([], rem) => ([], c :: rem)
       | (l :: ls, rem) => ((c :: l) :: ls, rem)) := by
  simp only [splitLines, if_neg h]

/-- Rebuilding the complete lines and the remainder recovers the
buffer. -/
theorem rejoin_splitLines : ∀ b : List Char,
    rejoin (splitLines b).1 (splitLines b).2 = b := by
  intro b
  induction b with
  | nil => rfl
  | cons c t ih =>
    by_cases h : c = '\n'
    · subst h
      rw [splitLines_newline_cons]
      simp only [rejoin, List.nil_append]
      rw [ih]
    · rcases hst : splitLines t with ⟨ls, rem⟩
      rw [hst] at ih
      rw [splitLines_cons_ne c t h, hst]
      cases ls with
      | nil =>
        show rejoin [] (c :: rem) = c :: t
        simp only [rejoin] at ih ⊢
        rw [ih]
      | cons l ls2 =>
        show rejoin ((c :: l) :: ls2) rem = c :: t
        simp only [rejoin] at ih ⊢
        rw [List.cons_append, ih]

/-- The remainder is rebuilt after the complete lines. -/
theorem rejoin_eq_append : ∀ (ls : List (List Char)) (rem : List Char),
    rejoin ls rem = rejoin ls [] ++ rem := by
  intro ls
  induction ls with
  | nil => intro rem; rfl
  | cons l ls2 ih =>
    intro rem
    simp only [rejoin]
    rw [ih rem]
    simp [List.append_assoc]

/-- Splitting a concatenation: the complete lines of the first part come
first, and the dangling remainder of the first part merges with the
second part. -/
theorem splitLines_append : ∀ a b : List Char,
    splitLines (a ++ b) =
      ((splitLines a).1 ++ (splitLines ((splitLines a).2 ++ b)).1,
       (splitLines ((splitLines a).2 ++ b)).2) := by
  intro a
  induction a with
  | nil => intro b; rfl
  | cons c t ih =>
    intro b
    by_cases h : c = '\n'
    · subst h
      rw [List.cons_append, splitLines_newline_cons, splitLines_newline_cons, ih b]
      rfl
    · rcases hst : splitLines t with ⟨ls, rem⟩
      rcases hb : splitLines (rem ++ b) with ⟨ls2, rem2⟩
      have ih2 := ih b
      rw [hst, hb] at ih2
      simp only at ih2
      have hct : splitLines (c :: t) =
          (match ((ls, rem) : List (List Char) × List Char) with
           | ([], rem) => ([], c :: rem)
           | (l :: ls, rem) => ((c :: l) :: ls, rem)) := by
        rw [splitLines_cons_ne c t h, hst]
      cases ls with
      | nil =>
        rw [List.nil_append] at ih2
        have hcrb : splitLines (c :: rem ++ b) =
            (match ((ls2, rem2) : List (List Char) × List Char) with
             | ([], rem) => ([], c :: rem)
             | (l :: ls, rem) => ((c :: l) :: ls, rem)) := by
          rw [List.cons_append, splitLines_cons_ne c (rem ++ b) h, hb]
        rw [List.cons_append, splitLines_cons_ne c (t ++ b) h, ih2, hct]
        cases ls2 with
        | nil => rw [hcrb]; rfl
        | cons l2 ls3 => rw [hcrb]; rfl
      | cons l ls3 =>
        rw [List.cons_append, splitLines_cons_ne c (t ++ b) h, ih2, hct, hb]
        simp

/-- A newline-free line followed by a newline splits off as the first
complete line. -/
theorem splitLines_line : ∀ (l r : List Char), '\n' ∉ l →
    splitLines (l ++ '\n' :: r) = (l :: (splitLines r).1, (splitLines r).2) := by
  intro l
  induction l with
  | nil => intro r _; rfl
  | cons c t ih =>
    intro r hn
    have hc : ¬ c = '\n' := fun h => hn (h ▸ List.mem_cons_self c t)
    have ht : '\n' ∉ t := fun h => hn (List.mem_cons_of_mem c h)
    rw [List.cons_append, splitLines_cons_ne c (t ++ '\n' :: r) hc, ih r ht]

/-- A trimmed list headed by a non-whitespace character is nonempty. -/
theorem jsTrim_ne_nil_of_head (c : Char) (t : List Char)
    (h : jsWhitespaceChar c = false) : jsTrim (c :: t) ≠ [] := by
  intro hnil
  unfold jsTrim at hnil
  rw [List.dropWhile_cons_of_neg (by simp [h]), List.reverse_eq_nil_iff,
    List.dropWhile_eq_nil_iff] at hnil
  have := hnil c (by simp)
  simp [h] at this

/-- A data line is neither a comment nor blank. -/
theorem data_not_skippable (l : List Char)
    (h : dataMarker.isPrefixOf (stripCR l) = true) :
    ¬ ((stripCR l).head? = some ':' ∨ jsTrim (stripCR l) = []) := by
  obtain ⟨t, ht⟩ : dataMarker <+: stripCR l := List.isPrefixOf_iff_prefix.mp h
  intro hor
  rcases hor with hh | htr
  · rw [← ht] at hh
    simp [dataMarker] at hh
  · rw [← ht] at htr
    exact jsTrim_ne_nil_of_head 'd' _ (by decide) htr

/-- The skip branch of the inner loop: comments and blank lines pass
over without touching the state. -/
theorem runLines_cons_skip (l : List Char) (ls : List (List Char))
    (rem : List Char) (st : DecSt)
    (h : (stripCR l).head? = some ':' ∨ jsTrim (stripCR l) = []) :
    runLines (l :: ls) rem st = runLines ls rem st := by
  simp only [runLines]
  rw [if_pos h]

/-- The skip branch of the inner loop for lines without the data
marker. -/
theorem runLines_cons_nondata (l : List Char) (ls : List (List Char))
    (rem : List Char) (st : DecSt)
    (h1 : ¬ ((stripCR l).head? = some ':' ∨ jsTrim (stripCR l) = []))
    (h2 : dataMarker.isPrefixOf (stripCR l) = false) :
    runLines (l :: ls) rem st = runLines ls rem st := by
  simp only [runLines]
  rw [if_neg h1, if_pos (by simp [h2])]

/-- The [DONE] branch: the inner loop stops, leaving the remaining
complete lines and remainder buffered and the state untouched. -/
theorem runLines_cons_done (l : List Char) (ls : List (List Char))
    (rem : List Char) (st : DecSt) (h : isDoneLine l = true) :
    runLines (l :: ls) rem st = ⟨rejoin ls rem, st, false⟩ := by
  obtain ⟨hpre, htrim⟩ :
      dataMarker.isPrefixOf (stripCR l) = true ∧
        jsTrim ((stripCR l).drop 6) = doneTok := by
    simpa [isDoneLine] using h
  simp only [runLines]
  rw [if_neg (data_not_skippable l hpre), if_neg (by simp [hpre]), if_pos htrim]

/-- The exception branch: when the try block throws, the stripped line is
re-prepended with a newline and the inner loop stops. -/
theorem runLines_cons_fail (l : List Char) (ls : List (List Char))
    (rem : List Char) (st : DecSt)
    (hpre : dataMarker.isPrefixOf (stripCR l) = true)
    (hnd : jsTrim ((stripCR l).drop 6) ≠ doneTok)
    (hte : tryEvent (jsTrim ((stripCR l).drop 6)) = none) :
    runLines (l :: ls) rem st = ⟨stripCR l ++ '\n' :: rejoin ls rem, st, false⟩ := by
  simp only [runLines]
  rw [if_neg (data_not_skippable l hpre), if_neg (by simp [hpre]), if_neg hnd, hte]

/-- The event branch with absent content: the loop continues with the
state untouched. -/
theorem runLines_cons_event_none (l : List Char) (ls : List (List Char))
    (rem : List Char) (st : DecSt)
    (hpre : dataMarker.isPrefixOf (stripCR l) = true)
    (hnd : jsTrim ((stripCR l).drop 6) ≠ doneTok)
    (hte : tryEvent (jsTrim ((stripCR l).drop 6)) = some none) :
    runLines (l :: ls) rem st = runLines ls rem st := by
  simp only [runLines]
  rw [if_neg (data_not_skippable l hpre), if_neg (by simp [hpre]), if_neg hnd, hte]

/-- The event branch with present content: the loop continues, pushing
the coerced fragment when the content is truthy. -/
theorem runLines_cons_event_some (l : List Char) (ls : List (List Char))
    (rem : List Char) (st : DecSt) (v : Json)
    (hpre : dataMarker.isPrefixOf (stripCR l) = true)
    (hnd : jsTrim ((stripCR l).drop 6) ≠ doneTok)
    (hte : tryEvent (jsTrim ((stripCR l).drop 6)) = some (some v)) :
    runLines (l :: ls) rem st =
      runLines ls rem (if jsTruthy v then st.push (jsToDisplay v) else st) := by
  simp only [runLines]
  rw [if_neg (data_not_skippable l hpre), if_neg (by simp [hpre]), if_neg hnd, hte]
  by_cases hv : jsTruthy v <;> simp [hv]

/-- Each line either lets the loop continue with some new state (and is
good), or breaks the loop without touching the state (and is not good);
the continuation state depends only on the line and the incoming state,
and is either the incoming state or the incoming state with one fragment
pushed. -/
theorem runLines_cons_cases (l : List Char) (st : DecSt) :
    (∃ st2, (∀ ls rem2, runLines (l :: ls) rem2 st = runLines ls rem2 st2) ∧
        goodLine l = true ∧ (st2 = st ∨ ∃ cf, st2 = st.push cf)) ∨
      ((∀ ls rem2, (runLines (l :: ls) rem2 st).ran = false ∧
          (runLines (l :: ls) rem2 st).st = st) ∧
        goodLine l = false) := by
  by_cases h1 : (stripCR l).head? = some ':' ∨ jsTrim (stripCR l) = []
  · refine Or.inl ⟨st, fun ls rem2 => runLines_cons_skip l ls rem2 st h1, ?_, Or.inl rfl⟩
    rcases h1 with h | h
    · simp [goodLine, h]
    · simp [goodLine, h]
  · push_neg at h1
    obtain ⟨ha, hb⟩ := h1
    by_cases h2 : dataMarker.isPrefixOf (stripCR l) = true
    · by_cases h3 : jsTrim ((stripCR l).drop 6) = doneTok
      · refine Or.inr ⟨fun ls rem2 => ?_, ?_⟩
        · rw [runLines_cons_done l ls rem2 st (by simp [isDoneLine, h2, h3])]
          exact ⟨rfl, rfl⟩
        · simp [goodLine, ha, hb, h2, h3]
      · rcases hte : tryEvent (jsTrim ((stripCR l).drop 6)) with _ | co
        · refine Or.inr ⟨fun ls rem2 => ?_, ?_⟩
          · rw [runLines_cons_fail l ls rem2 st h2 h3 hte]
            exact ⟨rfl, rfl⟩
          · simp [goodLine, ha, hb, h2, h3, hte]
        · cases co with
          | none =>
            refine Or.inl ⟨st, fun ls rem2 =>
              runLines_cons_event_none l ls rem2 st h2 h3 hte, ?_, Or.inl rfl⟩
            simp [goodLine, h2, h3, hte]
          | some v =>
            refine Or.inl ⟨if jsTruthy v then st.push (jsToDisplay v) else st,
              fun ls rem2 => runLines_cons_event_some l ls rem2 st v h2 h3 hte, ?_, ?_⟩
            · simp [goodLine, h2, h3, hte]
            · by_cases hv : jsTruthy v = true
              · exact Or.inr ⟨jsToDisplay v, by rw [if_pos hv]⟩
              · exact Or.inl (by rw [if_neg hv])
    · simp only [Bool.not_eq_true] at h2
      refine Or.inl ⟨st, fun ls rem2 =>
        runLines_cons_nondata l ls rem2 st (by tauto) h2, ?_, Or.inl rfl⟩
      simp [goodLine, h2]

/-- When the inner loop runs off the end of the line list, the remainder
argument passes through untouched and the final state does not depend on
it. -/
theorem runLines_ran_all : ∀ (ls : List (List Char)) (rem : List Char) (st : DecSt),
    (runLines ls rem st).ran = true →
    ∀ rem2, runLines ls rem2 st = ⟨rem2, (runLines ls rem st).st, true⟩ := by
  intro ls
  induction ls with
  | nil => intro rem st _ rem2; rfl
  | cons l ls2 ih =>
    intro rem st hran rem2
    rcases runLines_cons_cases l st with ⟨st2, heq, _, _⟩ | ⟨hbad, _⟩
    · rw [heq ls2 rem2]
      rw [heq ls2 rem] at hran ⊢
      exact ih rem st2 hran rem2
    · have h1 := (hbad ls2 rem).1
      rw [hran] at h1
      cases h1

/-- Appending further lines after a run that completed continues from
its final state. -/
theorem runLines_append : ∀ (ls1 ls2 : List (List Char)) (rem1 rem : List Char) (st : DecSt),
    (runLines ls1 rem1 st).ran = true →
    runLines (ls1 ++ ls2) rem st = runLines ls2 rem (runLines ls1 rem1 st).st := by
  intro ls1
  induction ls1 with
  | nil => intro ls2 rem1 rem st _; rfl
  | cons l ls ih =>
    intro ls2 rem1 rem st hran
    rcases runLines_cons_cases l st with ⟨st2, heq, _, _⟩ | ⟨hbad, _⟩
    · rw [List.cons_append, heq (ls ++ ls2) rem]
      rw [heq ls rem1] at hran ⊢
      exact ih ls2 rem1 rem st2 hran
    · have h1 := (hbad ls rem1).1
      rw [hran] at h1
      cases h1

/-- A list of good lines never breaks the inner loop. -/
theorem runLines_good : ∀ (ls : List (List Char)) (rem : List Char) (st : DecSt),
    (∀ l ∈ ls, goodLine l = true) → (runLines ls rem st).ran = true := by
  intro ls
  induction ls with
  | nil => intro rem st _; rfl
  | cons l ls2 ih =>
    intro rem st hall
    rcases runLines_cons_cases l st with ⟨st2, heq, _, _⟩ | ⟨_, hbadl⟩
    · rw [heq ls2 rem]
      exact ih rem st2 fun x hx => hall x (List.mem_cons_of_mem l hx)
    · have h1 := hall l (List.mem_cons_self l ls2)
      rw [hbadl] at h1
      cases h1

/-- A broken run contains a line that is not good. -/
theorem exists_bad_of_not_ran (ls : List (List Char)) (rem : List Char) (st : DecSt)
    (h : (runLines ls rem st).ran = false) : ∃ l ∈ ls, goodLine l = false := by
  by_contra hcon
  push_neg at hcon
  have hall : ∀ l ∈ ls, goodLine l = true := by
    intro l hl
    have h2 := hcon l hl
    revert h2
    cases goodLine l <;> simp
  rw [runLines_good ls rem st hall] at h
  cases h

/-- A completed buffer pass leaves exactly the dangling partial line. -/
theorem processBuffer_eq_of_ran (b : List Char) (st : DecSt)
    (h : (processBuffer b st).ran = true) :
    processBuffer b st = ⟨(splitLines b).2, (processBuffer b st).st, true⟩ :=
  runLines_ran_all (splitLines b).1 (splitLines b).2 st h (splitLines b).2

/-- The streaming composition law: when a buffer pass completed, feeding
more characters is the same as processing the leftover plus the new
characters from the reached state. -/
theorem processBuffer_append (b c : List Char) (st : DecSt)
    (h : (processBuffer b st).ran = true) :
    processBuffer (b ++ c) st =
      processBuffer ((processBuffer b st).buf ++ c) (processBuffer b st).st := by
  have hbuf : (processBuffer b st).buf = (splitLines b).2 := by
    rw [processBuffer_eq_of_ran b st h]
  rw [hbuf]
  show runLines (splitLines (b ++ c)).1 (splitLines (b ++ c)).2 st = _
  rw [splitLines_append b c]
  exact runLines_append (splitLines b).1 (splitLines ((splitLines b).2 ++ c)).1
    (splitLines b).2 (splitLines ((splitLines b).2 ++ c)).2 st h

/-- Chunked decoding of any prefix of a well-formed stream reaches the
same buffer and state as a single pass over that prefix. -/
theorem decode_inv (S : List Char) (hwf : wellFormedB S = true) :
    ∀ cs : List (List Char), cs.flatten <+: S →
      cs.foldl decodeStep ([], DecSt.init) =
        ((processBuffer cs.flatten DecSt.init).buf,
         (processBuffer cs.flatten DecSt.init).st) := by
  intro cs
  induction cs using List.reverseRecOn with
  | nil => intro _; rfl
  | append_singleton cs c ih =>
    intro hpre
    have hflat : (cs ++ [c]).flatten = cs.flatten ++ c := by simp
    have hpre1 : cs.flatten <+: S := by
      refine List.IsPrefix.trans ?_ hpre
      rw [hflat]
      exact List.prefix_append _ _
    rw [List.foldl_append]
    simp only [List.foldl_cons, List.foldl_nil]
    rw [ih hpre1, hflat]
    by_cases hran : (processBuffer cs.flatten DecSt.init).ran = true
    · simp only [decodeStep]
      rw [processBuffer_append cs.flatten c DecSt.init hran]
    · have hb : (processBuffer cs.flatten DecSt.init).ran = false := by
        revert hran
        cases (processBuffer cs.flatten DecSt.init).ran <;> simp
      obtain ⟨bad, hbadmem, hbadgood⟩ := exists_bad_of_not_ran _ _ _ hb
      have hlpre : (splitLines cs.flatten).1 <+: (splitLines S).1 := by
        obtain ⟨Q, hQ⟩ := hpre1
        rw [← hQ, splitLines_append]
        exact List.prefix_append _ _
      have hwf2 := hwf
      simp only [wellFormedB, Bool.or_eq_true, List.all_eq_true] at hwf2
      rcases hgl : (splitLines S).1.getLast? with _ | d
      · rw [hgl] at hwf2
        simp only [Bool.and_eq_true, beq_iff_eq, Bool.false_eq_true, or_false] at hwf2
        have h1 := hwf2 bad (hlpre.sublist.subset hbadmem)
        rw [hbadgood] at h1
        cases h1
      · rw [hgl] at hwf2
        simp only [Bool.and_eq_true, beq_iff_eq, List.all_eq_true] at hwf2
        rcases hwf2 with hall | ⟨⟨hd, hgs⟩, hrem⟩
        · have h1 := hall bad (hlpre.sublist.subset hbadmem)
          rw [hbadgood] at h1
          cases h1
        · have hL0 : (splitLines S).1.dropLast ++ [d] = (splitLines S).1 :=
            List.dropLast_append_getLast? d (by simp [hgl])
          obtain ⟨gs, hL⟩ : ∃ gs, (splitLines S).1 = gs ++ [d] :=
            ⟨(splitLines S).1.dropLast, hL0.symm⟩
          have hgsall : ∀ l ∈ gs, goodLine l = true := by
            rw [hL] at hgs
            simpa using hgs
          rw [hL] at hlpre
          rcases List.prefix_concat_iff.mp hlpre with heq | hpregs
          · have hPrej : rejoin (gs ++ [d]) (splitLines cs.flatten).2 = cs.flatten := by
              have h2 := rejoin_splitLines cs.flatten
              rw [heq] at h2
              exact h2
            have hSrej : rejoin (gs ++ [d]) [] = S := by
              have h2 := rejoin_splitLines S
              rw [hL, hrem] at h2
              exact h2
            have hPS : cs.flatten = S ++ (splitLines cs.flatten).2 := by
              conv_lhs => rw [← hPrej]
              rw [rejoin_eq_append, hSrej]
            have hremP : (splitLines cs.flatten).2 = [] := by
              have hlen := hpre1.length_le
              rw [hPS, List.length_append] at hlen
              have h3 : (splitLines cs.flatten).2.length = 0 := by omega
              exact List.length_eq_zero.mp h3
            have hPeqS : cs.flatten = S := by
              rw [hPS, hremP, List.append_nil]
            have hcnil : c = [] := by
              have hpre3 := hpre
              rw [hflat, hPeqS] at hpre3
              have hlen := hpre3.length_le
              rw [List.length_append] at hlen
              have h3 : c.length = 0 := by omega
              exact List.length_eq_zero.mp h3
            have hPB : processBuffer S DecSt.init =
                ⟨[], (runLines gs [] DecSt.init).st, false⟩ := by
              show runLines (splitLines S).1 (splitLines S).2 DecSt.init = _
              rw [hL, hrem,
                runLines_append gs [d] [] [] DecSt.init
                  (runLines_good gs [] DecSt.init hgsall),
                runLines_cons_done d [] [] _ hd]
              rfl
            rw [hPeqS, hcnil, List.append_nil, hPB]
            rfl
          · have h1 := hgsall bad (hpregs.sublist.subset hbadmem)
            rw [hbadgood] at h1
            cases h1

/-- Appending one fragment extends the running concatenations by the
join of everything so far plus the new fragment. -/
theorem prefixJoinsAux_concat : ∀ (fs : List (List Char)) (a c : List Char),
    prefixJoinsAux a (fs ++ [c]) = prefixJoinsAux a fs ++ [a ++ fs.flatten ++ c] := by
  intro fs
  induction fs with
  | nil => intro a c; simp [prefixJoinsAux]
  | cons f fs2 ih =>
    intro a c
    simp only [List.cons_append, prefixJoinsAux, List.append_eq]
    rw [ih (a ++ f) c]
    simp [List.append_assoc]

/-- Pushing a fragment preserves the accumulator and trace coherence. -/
theorem push_coherent (st : DecSt) (c : List Char)
    (h1 : st.acc = st.frags.flatten) (h2 : st.trace = prefixJoins st.frags) :
    (st.push c).acc = (st.push c).frags.flatten ∧
      (st.push c).trace = prefixJoins (st.push c).frags := by
  unfold DecSt.push
  refine ⟨?_, ?_⟩
  · simp [h1]
  · simp only [prefixJoins, prefixJoinsAux_concat, h2, h1]
    simp

/-- The inner loop preserves the accumulator and trace coherence. -/
theorem runLines_coherent : ∀ (ls : List (List Char)) (rem : List Char) (st : DecSt),
    st.acc = st.frags.flatten → st.trace = prefixJoins st.frags →
    (runLines ls rem st).st.acc = (runLines ls rem st).st.frags.flatten ∧
      (runLines ls rem st).st.trace = prefixJoins (runLines ls rem st).st.frags := by
  intro ls
  induction ls with
  | nil => intro rem st h1 h2; exact ⟨h1, h2⟩
  | cons l ls2 ih =>
    intro rem st h1 h2
    rcases runLines_cons_cases l st with ⟨st2, heq, _, hst2⟩ | ⟨hbad, _⟩
    · rw [heq ls2 rem]
      rcases hst2 with rfl | ⟨cf, rfl⟩
      · exact ih rem _ h1 h2
      · exact ih rem _ (push_coherent st cf h1 h2).1 (push_coherent st cf h1 h2).2
    · rw [(hbad ls2 rem).2]
      exact ⟨h1, h2⟩

/-- Chunked decoding preserves the accumulator and trace coherence. -/
theorem decode_coherent : ∀ (cs : List (List Char)) (p : List Char × DecSt),
    p.2.acc = p.2.frags.flatten → p.2.trace = prefixJoins p.2.frags →
    (cs.foldl decodeStep p).2.acc = (cs.foldl decodeStep p).2.frags.flatten ∧
      (cs.foldl decodeStep p).2.trace = prefixJoins (cs.foldl decodeStep p).2.frags := by
  intro cs
  induction cs with
  | nil => intro p h1 h2; exact ⟨h1, h2⟩
  | cons c cs2 ih =>
    intro p h1 h2
    simp only [List.foldl_cons]
    exact ih _ (runLines_coherent _ _ _ h1 h2).1 (runLines_coherent _ _ _ h1 h2).2

/-- The streaming setMessages updater on a nonempty transcript replaces
exactly the last element with the assistant message carrying the
published accumulator. -/
theorem updateLast_concat (ms : List Message) (m : Message) (a : List Char) :
    updateLast (ms ++ [m]) a = ms ++ [⟨Role.assistant, a, none⟩] := by
  unfold updateLast
  rw [if_neg (by simp), List.dropLast_concat]

/-- Folding streaming updates over a nonempty transcript only ever
rewrites its last element. -/
theorem foldl_updateLast_concat : ∀ (l : List (List Char)) (ms : List Message) (m : Message),
    ∃ y, l.foldl updateLast (ms ++ [m]) = ms ++ [y] := by
  intro l
  induction l with
  | nil => intro ms m; exact ⟨m, rfl⟩
  | cons a l2 ih =>
    intro ms m
    rw [List.foldl_cons, updateLast_concat]
    exact ih ms _

/-- The element at the boundary position of an appended transcript. -/
theorem getElem?_append_self (ms : List Message) (m : Message) (rest : List Message) :
    (ms ++ m :: rest)[ms.length]? = some m := by
  rw [List.getElem?_append_right (le_refl ms.length)]
  simp

/-- The failure branch of handleSend: bad status or missing body rolls
the transcript back to the user message, surfaces the error message of
the body, clears loading, and keeps the selected image and file input. -/
theorem handleSend_failure (ms : List Message) (inp img : List Char) (ld : Bool)
    (fv : List Char) (ok : Bool) (jb : Option (List Char))
    (stm : Option (List (List Char) × Option (List Char)))
    (hfail : ok = false ∨ stm = none) :
    handleSend ⟨ms, inp, some img, ld, fv⟩ ⟨ok, jb, stm⟩ =
      ⟨⟨ms ++ [⟨Role.user, if jsTrim inp = [] then defaultQuestion else jsTrim inp, some img⟩],
        [], some img, false, fv⟩,
       [errorMessageOf jb],
       some ⟨img, if jsTrim inp = [] then none else some (jsTrim inp)⟩⟩ := by
  rcases hfail with rfl | rfl
  · rcases stm with _ | p
    · simp [handleSend]
    · simp [handleSend]
  · rcases ok with _ | _
    · simp [handleSend]
    · simp [handleSend]

/-- The decode-exception branch of handleSend: the transcript rolls back
to the user message, the exception message is surfaced, loading is
cleared, and the selected image and file input are kept. -/
theorem handleSend_stream_err (ms : List Message) (inp img : List Char) (ld : Bool)
    (fv : List Char) (jb : Option (List Char)) (chunks : List (List Char)) (em : List Char) :
    handleSend ⟨ms, inp, some img, ld, fv⟩ ⟨true, jb, some (chunks, some em)⟩ =
      ⟨⟨ms ++ [⟨Role.user, if jsTrim inp = [] then defaultQuestion else jsTrim inp, some img⟩],
        [], some img, false, fv⟩,
       [em],
       some ⟨img, if jsTrim inp = [] then none else some (jsTrim inp)⟩⟩ := by
  obtain ⟨y, hy⟩ := foldl_updateLast_concat
    ((decodeChunks chunks).2.trace)
    (ms ++ [⟨Role.user, if jsTrim inp = [] then defaultQuestion else jsTrim inp, some img⟩])
    ⟨Role.assistant, [], none⟩
  have hdrop : ∀ (ms2 : List Message) (u2 y2 : Message),
      (ms2 ++ [u2, y2]).dropLast = ms2 ++ [u2] := by
    intro ms2 u2 y2
    have h : ms2 ++ [u2, y2] = (ms2 ++ [u2]) ++ [y2] := by simp
    rw [h, List.dropLast_concat]
  simp only [List.append_assoc, List.singleton_append] at hy
  simp [handleSend, hy, hdrop]

/-- The success branch of handleSend: the transcript keeps the streamed
updates, the selected image and the file input are cleared, loading is
cleared, and no toast is raised. -/
theorem handleSend_stream_ok (ms : List Message) (inp img : List Char) (ld : Bool)
    (fv : List Char) (jb : Option (List Char)) (chunks : List (List Char)) :
    handleSend ⟨ms, inp, some img, ld, fv⟩ ⟨true, jb, some (chunks, none)⟩ =
      ⟨⟨(decodeChunks chunks).2.trace.foldl updateLast
          ((ms ++ [⟨Role.user, if jsTrim inp = [] then defaultQuestion else jsTrim inp, some img⟩]) ++
            [⟨Role.assistant, [], none⟩]),
        [], none, false, []⟩,
       [],
       some ⟨img, if jsTrim inp = [] then none else some (jsTrim inp)⟩⟩ := by
  simp [handleSend]

/-- Claim C1, amended: when the decoder extracts a complete [DONE] line,
it stops processing the current buffer immediately: that pass returns
with the rest of the buffer unconsumed and the accumulator state
untouched by any line after the sentinel.  The stop is not persistent,
however: the outer read loop has no stop flag, so the leftover buffer is
processed again on the next read; lines after the sentinel are ignored
for good only when the stream ends with the read that contained the
sentinel (see the counterexample for the claim as stated). -/
theorem C1_done_stops_current_pass (l r : List Char) (st : DecSt)
    (hnl : '\n' ∉ l) (hd : isDoneLine l = true) :
    processBuffer (l ++ '\n' :: r) st = ⟨r, st, false⟩ := by
  show runLines (splitLines (l ++ '\n' :: r)).1 (splitLines (l ++ '\n' :: r)).2 st = _
  rw [splitLines_line l r hnl,
    runLines_cons_done l (splitLines r).1 (splitLines r).2 st hd,
    show rejoin (splitLines r).1 (splitLines r).2 = r from rejoin_splitLines r]

/-- Claim C1 witness: a concrete pass over a buffer holding the sentinel
and a further data line stops at the sentinel with that line still
buffered and nothing accumulated. -/
theorem C1_done_stops_current_pass_witness :
    processBuffer ((("data: [DONE]").toList) ++ '\n' :: (("data: x\n").toList)) DecSt.init =
      ⟨("data: x\n").toList, DecSt.init, false⟩ :=
  C1_done_stops_current_pass (("data: [DONE]").toList) (("data: x\n").toList) DecSt.init
    (by decide) (by decide)

/-- Claim C1 counterexample: the same single-chunk bytes that accumulate
nothing (the post-sentinel line stays buffered and the stream ends)
accumulate the post-sentinel fragment as soon as one more read occurs —
even an empty one — so decoding does not stop at the sentinel: a line
after the sentinel sitting in the buffer is parsed when a later chunk
arrives. -/
theorem C1_done_not_persistent_cex :
    (decodeChunks
        [("data: [DONE]\ndata: \x7b\"choices\":[\x7b\"delta\":\x7b\"content\":\"x\"\x7d\x7d]\x7d\n").toList]).2.acc
        = [] ∧
      (decodeChunks
        [("data: [DONE]\ndata: \x7b\"choices\":[\x7b\"delta\":\x7b\"content\":\"x\"\x7d\x7d]\x7d\n").toList,
          ([] : List Char)]).2.acc = ("x").toList := by
  exact ⟨by decide, by decide⟩

/-- Claim C2: decoding a well-formed SSE stream chunked at arbitrary
offsets accumulates exactly the same text as decoding it as one unsplit
chunk. -/
theorem C2_chunking_invariance (S : List Char) (chunks : List (List Char))
    (hwf : wellFormedB S = true) (hsplit : chunks.flatten = S) :
    (decodeChunks chunks).2.acc = (decodeChunks [S]).2.acc := by
  have h1 := decode_inv S hwf chunks (by rw [hsplit])
  have h2 : decodeChunks [S] =
      ((processBuffer S DecSt.init).buf, (processBuffer S DecSt.init).st) := rfl
  show (chunks.foldl decodeStep ([], DecSt.init)).2.acc = _
  rw [h1, hsplit, h2]

/-- Claim C2 witness: a concrete well-formed stream split mid-JSON-token
accumulates the same text as the unsplit stream. -/
theorem C2_chunking_invariance_witness :
    wellFormedB
        (("data: \x7b\"choices\":[\x7b\"delta\":\x7b\"content\":\"hi\"\x7d\x7d]\x7d\ndata: [DONE]\n").toList)
        = true ∧
      (decodeChunks [("data: \x7b\"choi").toList,
          ("ces\":[\x7b\"delta\":\x7b\"content\":\"hi\"\x7d\x7d]\x7d\ndata: [DONE]\n").toList]).2.acc =
        (decodeChunks
          [("data: \x7b\"choices\":[\x7b\"delta\":\x7b\"content\":\"hi\"\x7d\x7d]\x7d\ndata: [DONE]\n").toList]).2.acc :=
  ⟨by decide, C2_chunking_invariance _ _ (by decide) (by decide)⟩

/-- Claim C3: when JSON parsing of an extracted data payload throws, the
decoder discards nothing: the (CR-stripped) line followed by a newline is
re-prepended onto the front of the buffer and the pass over the current
buffer stops with the accumulator state unchanged; and the two-chunk
stream whose first chunk ends mid-JSON-object accumulates exactly cat. -/
theorem C3_parse_failure_pushback (l r : List Char) (st : DecSt)
    (hnl : '\n' ∉ l)
    (hpre : dataMarker.isPrefixOf (stripCR l) = true)
    (hnd : jsTrim ((stripCR l).drop 6) ≠ doneTok)
    (hfail : tryEvent (jsTrim ((stripCR l).drop 6)) = none) :
    processBuffer (l ++ '\n' :: r) st = ⟨stripCR l ++ '\n' :: r, st, false⟩ ∧
      (decodeChunks [("data: \x7b\"choices\":[\x7b\"delta\":\x7b\"con").toList,
          ("tent\":\"cat\"\x7d\x7d]\x7d\n").toList]).2.acc = ("cat").toList := by
  constructor
  · show runLines (splitLines (l ++ '\n' :: r)).1 (splitLines (l ++ '\n' :: r)).2 st = _
    rw [splitLines_line l r hnl,
      runLines_cons_fail l (splitLines r).1 (splitLines r).2 st hpre hnd hfail,
      show rejoin (splitLines r).1 (splitLines r).2 = r from rejoin_splitLines r]
  · decide

/-- Claim C3 witness: a concrete data line whose payload is an unclosed
brace is pushed back verbatim with its newline, and the two-chunk
mid-JSON split still accumulates cat. -/
theorem C3_parse_failure_pushback_witness :
    (processBuffer ((("data: \x7b").toList) ++ '\n' :: (("rest").toList)) DecSt.init =
        ⟨stripCR (("data: \x7b").toList) ++ '\n' :: (("rest").toList), DecSt.init, false⟩) ∧
      (decodeChunks [("data: \x7b\"choices\":[\x7b\"delta\":\x7b\"con").toList,
          ("tent\":\"cat\"\x7d\x7d]\x7d\n").toList]).2.acc = ("cat").toList :=
  C3_parse_failure_pushback (("data: \x7b").toList) (("rest").toList) DecSt.init
    (by decide) (by decide) (by decide) rfl

/-- Claim C7: a complete line beginning with a colon, or blank after
stripping a trailing carriage return, contributes nothing: processing a
buffer headed by such a line is identical to processing the rest, and
prepending such a line (with its newline) to the first chunk of any
chunked stream leaves the whole decode unchanged. -/
theorem C7_comment_blank_skipped (l : List Char)
    (hnl : '\n' ∉ l)
    (hskip : (stripCR l).head? = some ':' ∨ jsTrim (stripCR l) = []) :
    (∀ (r : List Char) (st : DecSt),
        processBuffer (l ++ '\n' :: r) st = processBuffer r st) ∧
      ∀ (c : List Char) (cs : List (List Char)),
        decodeChunks ((l ++ '\n' :: c) :: cs) = decodeChunks (c :: cs) := by
  have hstep : ∀ (r : List Char) (st : DecSt),
      processBuffer (l ++ '\n' :: r) st = processBuffer r st := by
    intro r st
    show runLines (splitLines (l ++ '\n' :: r)).1 (splitLines (l ++ '\n' :: r)).2 st = _
    rw [splitLines_line l r hnl,
      runLines_cons_skip l (splitLines r).1 (splitLines r).2 st hskip]
    rfl
  refine ⟨hstep, fun c cs => ?_⟩
  show ((l ++ '\n' :: c) :: cs).foldl decodeStep ([], DecSt.init) =
    (c :: cs).foldl decodeStep ([], DecSt.init)
  simp only [List.foldl_cons]
  congr 1
  simp only [decodeStep, List.nil_append]
  rw [hstep c DecSt.init]

/-- Claim C7 witness: a concrete keep-alive comment line and a concrete
blank line contribute nothing, directly and under chunking. -/
theorem C7_comment_blank_skipped_witness :
    processBuffer (((": keep-alive").toList) ++ '\n' :: (("data: x\n").toList)) DecSt.init =
        processBuffer (("data: x\n").toList) DecSt.init ∧
      decodeChunks [((": keep-alive").toList) ++ '\n' :: (("abc").toList)] =
        decodeChunks [("abc").toList] ∧
      processBuffer ((("\r").toList) ++ '\n' :: (("xyz").toList)) DecSt.init =
        processBuffer (("xyz").toList) DecSt.init :=
  ⟨(C7_comment_blank_skipped ((": keep-alive").toList) (by decide) (by decide)).1
      (("data: x\n").toList) DecSt.init,
   (C7_comment_blank_skipped ((": keep-alive").toList) (by decide) (by decide)).2
      (("abc").toList) [],
   (C7_comment_blank_skipped (("\r").toList) (by decide) (by decide)).1
      (("xyz").toList) DecSt.init⟩

/-- Claim C6: a streaming update rewrites exactly the last transcript
element (the assistant placeholder), setting its content to the full
published accumulator and leaving every other element unchanged; and the
values the decoder publishes are precisely the running concatenations,
in decode order, of the fragments parsed so far — never a bare delta —
the final accumulator being the concatenation of all fragments. -/
theorem C6_streaming_updates :
    (∀ (ms : List Message) (c0 a : List Char),
        updateLast (ms ++ [⟨Role.assistant, c0, none⟩]) a =
          ms ++ [⟨Role.assistant, a, none⟩]) ∧
      ∀ chunks : List (List Char),
        (decodeChunks chunks).2.trace = prefixJoins (decodeChunks chunks).2.frags ∧
          (decodeChunks chunks).2.acc = (decodeChunks chunks).2.frags.flatten := by
  refine ⟨fun ms c0 a => updateLast_concat ms _ a, fun chunks => ?_⟩
  have h := decode_coherent chunks ([], DecSt.init) rfl rfl
  exact ⟨h.2, h.1⟩

/-- Claim C5: a send with no selected image — whatever the text input —
is rejected before any request: the state is unchanged, no request is
issued, and a validation message is shown. -/
theorem C5_no_image_rejected (s : AppState) (r : Response)
    (h : s.selectedImage = none) :
    (handleSend s r).state = s ∧ (handleSend s r).request = none ∧
      (handleSend s r).toasts =
        [if jsTrim s.input = [] then ("Please upload an image or enter a message").toList
         else ("Please upload an image to analyze").toList] := by
  rcases s with ⟨ms, inp, sel, ld, fv⟩
  have h2 : sel = none := h
  subst h2
  by_cases hin : jsTrim inp = []
  · simp [handleSend, hin]
  · simp [handleSend, hin]

/-- Claim C5 witness: a concrete send with text but no image leaves the
state unchanged, issues no request and raises the validation toast. -/
theorem C5_no_image_rejected_witness :
    (handleSend ⟨[], ("hi").toList, none, false, []⟩ ⟨true, none, none⟩).state =
        ⟨[], ("hi").toList, none, false, []⟩ ∧
      (handleSend ⟨[], ("hi").toList, none, false, []⟩ ⟨true, none, none⟩).request = none ∧
      (handleSend ⟨[], ("hi").toList, none, false, []⟩ ⟨true, none, none⟩).toasts =
        [if jsTrim (("hi").toList) = []
         then ("Please upload an image or enter a message").toList
         else ("Please upload an image to analyze").toList] :=
  C5_no_image_rejected ⟨[], ("hi").toList, none, false, []⟩ ⟨true, none, none⟩ rfl

/-- Claim C8: upload validation — a file not declaring an image media
type is rejected with a message and no state change; a declared image
over 20 MiB (strictly more than 20*1024*1024 bytes) is rejected with a
message and no state change; a declared image within the limit becomes
the selected image. -/
theorem C8_upload_validation (s : AppState) (f : FileData) :
    (("image/").toList.isPrefixOf f.ftype = false →
        handleImageSelect s (some f) = (s, [("Please select an image file").toList])) ∧
      (("image/").toList.isPrefixOf f.ftype = true → 20 * 1024 * 1024 < f.size →
        handleImageSelect s (some f) = (s, [("Image size must be less than 20MB").toList])) ∧
      (("image/").toList.isPrefixOf f.ftype = true → f.size ≤ 20 * 1024 * 1024 →
        handleImageSelect s (some f) = ({ s with selectedImage := some f.dataUrl }, [])) := by
  refine ⟨fun h1 => ?_, fun h1 h2 => ?_, fun h1 h2 => ?_⟩
  · have h1p : ¬ ((['i', 'm', 'a', 'g', 'e', '/'] : List Char) <+: f.ftype) := by
      rw [show (['i', 'm', 'a', 'g', 'e', '/'] : List Char) = ("image/").toList from rfl,
        ← List.isPrefixOf_iff_prefix, h1]
      simp
    simp [handleImageSelect, h1p]
  · have h1p : (['i', 'm', 'a', 'g', 'e', '/'] : List Char) <+: f.ftype :=
      List.isPrefixOf_iff_prefix.mp h1
    simp [handleImageSelect, h1p, h2]
  · have h1p : (['i', 'm', 'a', 'g', 'e', '/'] : List Char) <+: f.ftype :=
      List.isPrefixOf_iff_prefix.mp h1
    simp [handleImageSelect, h1p, Nat.not_lt.mpr h2]

/-- Claim C8 witness: a PNG within the limit is selected; a text file and
an oversized image are rejected without state change. -/
theorem C8_upload_validation_witness :
    handleImageSelect ⟨[], [], none, false, []⟩
        (some ⟨("image/png").toList, 5, ("data:img").toList⟩) =
      ({(⟨[], [], none, false, []⟩ : AppState) with
          selectedImage := some (("data:img").toList)}, []) ∧
      handleImageSelect ⟨[], [], none, false, []⟩
          (some ⟨("text/plain").toList, 5, ("d").toList⟩) =
        (⟨[], [], none, false, []⟩, [("Please select an image file").toList]) ∧
      handleImageSelect ⟨[], [], none, false, []⟩
          (some ⟨("image/png").toList, 20971521, ("d").toList⟩) =
        (⟨[], [], none, false, []⟩, [("Image size must be less than 20MB").toList]) :=
  ⟨(C8_upload_validation ⟨[], [], none, false, []⟩ _).2.2 (by decide) (by decide),
   (C8_upload_validation ⟨[], [], none, false, []⟩ _).1 (by decide),
   (C8_upload_validation ⟨[], [], none, false, []⟩ _).2.1 (by decide) (by decide)⟩

/-- Claim C9: when a send proceeds (an image is selected), the appended
user message content is the trimmed input, defaulting when it trims to
empty, and the request prompt field is that trimmed input, omitted
(undefined) when it trims to empty. -/
theorem C9_prompt_contract (s : AppState) (img : List Char) (r : Response)
    (himg : s.selectedImage = some img) :
    (handleSend s r).request =
        some ⟨img, if jsTrim s.input = [] then none else some (jsTrim s.input)⟩ ∧
      (handleSend s r).state.messages[s.messages.length]? =
        some ⟨Role.user,
          if jsTrim s.input = [] then defaultQuestion else jsTrim s.input, some img⟩ := by
  rcases s with ⟨ms, inp, sel, ld, fv⟩
  have h2 : sel = some img := himg
  subst h2
  rcases r with ⟨ok, jb, stm⟩
  rcases stm with _ | ⟨chunks, errOpt⟩
  · rw [handleSend_failure ms inp img ld fv ok jb none (Or.inr rfl)]
    exact ⟨rfl, getElem?_append_self ms _ []⟩
  · cases ok
    · rw [handleSend_failure ms inp img ld fv false jb (some (chunks, errOpt)) (Or.inl rfl)]
      exact ⟨rfl, getElem?_append_self ms _ []⟩
    · rcases errOpt with _ | em
      · rw [handleSend_stream_ok ms inp img ld fv jb chunks]
        obtain ⟨y, hy⟩ := foldl_updateLast_concat ((decodeChunks chunks).2.trace)
          (ms ++ [⟨Role.user, if jsTrim inp = [] then defaultQuestion else jsTrim inp, some img⟩])
          ⟨Role.assistant, [], none⟩
        refine ⟨rfl, ?_⟩
        show (List.foldl updateLast _ _)[ms.length]? = _
        rw [hy, List.append_assoc]
        exact getElem?_append_self ms _ _
      · rw [handleSend_stream_err ms inp img ld fv jb chunks em]
        exact ⟨rfl, getElem?_append_self ms _ []⟩

/-- Claim C9 witness: concrete sends with empty and with nonempty text:
default content with omitted prompt, and trimmed content echoed in the
prompt, respectively. -/
theorem C9_prompt_contract_witness :
    ((handleSend ⟨[], (" ").toList, some (("i").toList), false, []⟩ ⟨false, none, none⟩).request =
        some ⟨("i").toList,
          if jsTrim ((" ").toList) = [] then none else some (jsTrim ((" ").toList))⟩ ∧
      (handleSend ⟨[], (" ").toList, some (("i").toList), false, []⟩
          ⟨false, none, none⟩).state.messages[(List.length ([] : List Message))]? =
        some ⟨Role.user,
          if jsTrim ((" ").toList) = [] then defaultQuestion else jsTrim ((" ").toList),
          some (("i").toList)⟩) ∧
      (handleSend ⟨[], (" cats ").toList, some (("i").toList), false, []⟩ ⟨false, none, none⟩).request =
        some ⟨("i").toList,
          if jsTrim ((" cats ").toList) = [] then none else some (jsTrim ((" cats ").toList))⟩ :=
  ⟨C9_prompt_contract ⟨[], (" ").toList, some (("i").toList), false, []⟩ (("i").toList)
      ⟨false, none, none⟩ rfl,
   (C9_prompt_contract ⟨[], (" cats ").toList, some (("i").toList), false, []⟩ (("i").toList)
      ⟨false, none, none⟩ rfl).1⟩

/-- Claim C10: on any send failure — HTTP failure, missing body, or a
decode exception — the selected image and the file input are untouched
so the user can retry; on successful stream completion both are
cleared. -/
theorem C10_image_retention (s : AppState) (img : List Char) (r : Response)
    (himg : s.selectedImage = some img) :
    ((r.ok = false ∨ r.stream = none) →
        (handleSend s r).state.selectedImage = some img ∧
          (handleSend s r).state.fileInputValue = s.fileInputValue) ∧
      (∀ chunks em, r.stream = some (chunks, some em) →
        (handleSend s r).state.selectedImage = some img ∧
          (handleSend s r).state.fileInputValue = s.fileInputValue) ∧
      (∀ chunks, r.ok = true → r.stream = some (chunks, none) →
        (handleSend s r).state.selectedImage = none ∧
          (handleSend s r).state.fileInputValue = []) := by
  rcases s with ⟨ms, inp, sel, ld, fv⟩
  have h2 : sel = some img := himg
  subst h2
  rcases r with ⟨ok, jb, stm⟩
  refine ⟨fun hfail => ?_, fun chunks em hstm => ?_, fun chunks hok hstm => ?_⟩
  · rw [handleSend_failure ms inp img ld fv ok jb stm hfail]
    exact ⟨rfl, rfl⟩
  · have h3 : stm = some (chunks, some em) := hstm
    subst h3
    cases ok
    · rw [handleSend_failure ms inp img ld fv false jb _ (Or.inl rfl)]
      exact ⟨rfl, rfl⟩
    · rw [handleSend_stream_err ms inp img ld fv jb chunks em]
      exact ⟨rfl, rfl⟩
  · have h3 : stm = some (chunks, none) := hstm
    have h4 : ok = true := hok
    subst h3
    subst h4
    rw [handleSend_stream_ok ms inp img ld fv jb chunks]
    exact ⟨rfl, rfl⟩

/-- Claim C10 witness: concrete HTTP-failure, decode-exception and
success sends: the first two keep the image and file input, the last
clears both. -/
theorem C10_image_retention_witness :
    ((handleSend ⟨[], [], some (("i").toList), false, ("f").toList⟩
          ⟨false, none, none⟩).state.selectedImage = some (("i").toList) ∧
      (handleSend ⟨[], [], some (("i").toList), false, ("f").toList⟩
          ⟨false, none, none⟩).state.fileInputValue = ("f").toList) ∧
      ((handleSend ⟨[], [], some (("i").toList), false, ("f").toList⟩
          ⟨true, none, some ([], some (("boom").toList))⟩).state.selectedImage =
            some (("i").toList) ∧
        (handleSend ⟨[], [], some (("i").toList), false, ("f").toList⟩
          ⟨true, none, some ([], some (("boom").toList))⟩).state.fileInputValue =
            ("f").toList) ∧
      ((handleSend ⟨[], [], some (("i").toList), false, ("f").toList⟩
          ⟨true, none, some ([], none)⟩).state.selectedImage = none ∧
        (handleSend ⟨[], [], some (("i").toList), false, ("f").toList⟩
          ⟨true, none, some ([], none)⟩).state.fileInputValue = []) :=
  ⟨(C10_image_retention ⟨[], [], some (("i").toList), false, ("f").toList⟩ (("i").toList)
      ⟨false, none, none⟩ rfl).1 (Or.inl rfl),
   (C10_image_retention ⟨[], [], some (("i").toList), false, ("f").toList⟩ (("i").toList)
      ⟨true, none, some ([], some (("boom").toList))⟩ rfl).2.1 [] (("boom").toList) rfl,
   (C10_image_retention ⟨[], [], some (("i").toList), false, ("f").toList⟩ (("i").toList)
      ⟨true, none, some ([], none)⟩ rfl).2.2 [] rfl rfl⟩

/-- Claim C4, amended: on any failure — bad status, missing body, or an
exception during decoding — the transcript afterwards is exactly the
prior transcript plus the user message (with its image), the assistant
placeholder having been removed, and sending is re-enabled.  The
surfaced error text on HTTP/body failures is the message of the thrown
error: the server error field when it is present and a non-empty string
(e.g. rate limited); the generic message when the field is an empty
string, absent, or the body is missing or unparsable; and, when the
body is the JSON value null, the TypeError message raised by reading the
field off null.  On a decode exception the surfaced text is the
exception message itself. -/
theorem C4_failure_rollback (s : AppState) (img : List Char) (r : Response)
    (himg : s.selectedImage = some img) :
    ((r.ok = false ∨ r.stream = none) →
        (handleSend s r).state.messages =
            s.messages ++ [⟨Role.user,
              if jsTrim s.input = [] then defaultQuestion else jsTrim s.input, some img⟩] ∧
          (handleSend s r).toasts = [errorMessageOf r.jsonBody] ∧
          (handleSend s r).state.isLoading = false) ∧
      (∀ chunks em, r.stream = some (chunks, some em) → r.ok = true →
        (handleSend s r).state.messages =
            s.messages ++ [⟨Role.user,
              if jsTrim s.input = [] then defaultQuestion else jsTrim s.input, some img⟩] ∧
          (handleSend s r).toasts = [em] ∧
          (handleSend s r).state.isLoading = false) ∧
      (∀ t j ec, r.jsonBody = some t → jsonParse t = some j →
          jsGetProp j (("error").toList) = some (Json.str ec) →
          errorMessageOf r.jsonBody = (if ec = [] then fallbackErr else ec)) ∧
      (∀ t, r.jsonBody = some t → jsonParse t = some Json.null →
          errorMessageOf r.jsonBody = nullErrorAccessMsg) ∧
      (∀ t j, r.jsonBody = some t → jsonParse t = some j → j ≠ Json.null →
          jsGetProp j (("error").toList) = none →
          errorMessageOf r.jsonBody = fallbackErr) ∧
      (∀ t, r.jsonBody = some t → jsonParse t = none →
          errorMessageOf r.jsonBody = fallbackErr) ∧
      (r.jsonBody = none → errorMessageOf r.jsonBody = fallbackErr) := by
  rcases s with ⟨ms, inp, sel, ld, fv⟩
  have h2 : sel = some img := himg
  subst h2
  rcases r with ⟨ok, jb, stm⟩
  refine ⟨fun hfail => ?_, fun chunks em hstm hok => ?_,
    fun t j ec ht hj hv => ?_, fun t ht hj => ?_,
    fun t j ht hj hnull hv => ?_, fun t ht hj => ?_, fun ht => ?_⟩
  · rw [handleSend_failure ms inp img ld fv ok jb stm hfail]
    exact ⟨rfl, rfl, rfl⟩
  · have h3 : stm = some (chunks, some em) := hstm
    have h4 : ok = true := hok
    subst h3
    subst h4
    rw [handleSend_stream_err ms inp img ld fv jb chunks em]
    exact ⟨rfl, rfl, rfl⟩
  · have h3 : jb = some t := ht
    subst h3
    have hv2 : jsGetProp j (['e', 'r', 'r', 'o', 'r'] : List Char) = some (Json.str ec) := hv
    rcases j with _ | b | q | s2 | es | fs
    · simp [jsGetProp] at hv2
    · simp [jsGetProp] at hv2
    · simp [jsGetProp] at hv2
    · simp [jsGetProp] at hv2
    · simp [jsGetProp] at hv2
    · by_cases hec : ec = []
      · simp [errorMessageOf, hj, hv2, jsTruthy, hec]
      · simp [errorMessageOf, hj, hv2, jsTruthy, jsToDisplay, hec]
  · have h3 : jb = some t := ht
    subst h3
    simp [errorMessageOf, hj]
  · have h3 : jb = some t := ht
    subst h3
    have hv2 : jsGetProp j (['e', 'r', 'r', 'o', 'r'] : List Char) = none := hv
    rcases j with _ | b | q | s2 | es | fs
    · exact absurd rfl hnull
    · simp [errorMessageOf, hj, hv2]
    · simp [errorMessageOf, hj, hv2]
    · simp [errorMessageOf, hj, hv2]
    · simp [errorMessageOf, hj, hv2]
    · simp [errorMessageOf, hj, hv2]
  · have h3 : jb = some t := ht
    subst h3
    simp [errorMessageOf, hj]
  · have h3 : jb = none := ht
    subst h3
    rfl

/-- Claim C4 witness: a concrete HTTP 500 whose body carries the error
field rate limited: the transcript afterwards is exactly the user
message with its image, the surfaced text is the error message of that
body, and sending is re-enabled. -/
theorem C4_failure_rollback_witness :
    (handleSend ⟨[], [], some (("i").toList), false, []⟩
          ⟨false, some (("\x7b\"error\":\"rate limited\"\x7d").toList), none⟩).state.messages =
        [] ++ [⟨Role.user,
          if jsTrim ([] : List Char) = [] then defaultQuestion else jsTrim ([] : List Char),
          some (("i").toList)⟩] ∧
      (handleSend ⟨[], [], some (("i").toList), false, []⟩
          ⟨false, some (("\x7b\"error\":\"rate limited\"\x7d").toList), none⟩).toasts =
        [errorMessageOf (some (("\x7b\"error\":\"rate limited\"\x7d").toList))] ∧
      (handleSend ⟨[], [], some (("i").toList), false, []⟩
          ⟨false, some (("\x7b\"error\":\"rate limited\"\x7d").toList), none⟩).state.isLoading =
        false :=
  (C4_failure_rollback ⟨[], [], some (("i").toList), false, []⟩ (("i").toList)
      ⟨false, some (("\x7b\"error\":\"rate limited\"\x7d").toList), none⟩ rfl).1 (Or.inl rfl)

/-- Claim C4 counterexample: three concrete failure runs refute the
claimed surfaced text.  With a present but empty error field the
generic message is surfaced, not the (present) field.  With the JSON
body null — no field present — the surfaced text is the TypeError
message from reading the field off null, not the generic message.  With
an exception thrown during decoding the surfaced text is the exception
message, even though the body carries a present, truthy error field,
so it is neither that field nor the generic message. -/
theorem C4_error_text_cex :
    (errFieldPresent (("\x7b\"error\":\"\"\x7d").toList) = true ∧
      (handleSend ⟨[], [], some (("i").toList), false, []⟩
          ⟨false, some (("\x7b\"error\":\"\"\x7d").toList), none⟩).toasts = [fallbackErr] ∧
      fallbackErr ≠ []) ∧
    ((handleSend ⟨[], [], some (("i").toList), false, []⟩
          ⟨false, some (("null").toList), none⟩).toasts = [nullErrorAccessMsg] ∧
      errFieldPresent (("null").toList) = false ∧
      nullErrorAccessMsg ≠ fallbackErr) ∧
    ((handleSend ⟨[], [], some (("i").toList), false, []⟩
          ⟨true, some (("\x7b\"error\":\"rate limited\"\x7d").toList),
            some ([], some (("boom").toList))⟩).toasts = [("boom").toList] ∧
      errFieldPresent (("\x7b\"error\":\"rate limited\"\x7d").toList) = true ∧
      ("boom").toList ≠ fallbackErr ∧
      ("boom").toList ≠ ("rate limited").toList) := by
  exact ⟨⟨by decide, by decide, by decide⟩,
    ⟨by decide, by decide, by decide⟩,
    ⟨by decide, by decide, by decide, by decide⟩⟩

end ImageInsight
